import Mathlib

/-!
# Verification of the Proof-of-Stake ledger engine (`src/p2p/blockchain.py`)

This file is a shallow embedding of the ledger engine of the repository's
p2p node: transactions, blocks, validators, accounts, the mempool, and the
engine operations (`add_transaction`, `add_remote_transaction`, `mine_block`,
`add_block_from_network`, `replace_chain`, `rebuild_state`, `is_chain_valid`,
`select_validator`, `create_account`, `add_validator`), followed by theorems
about the embedded operations.

Modelling conventions:
* Monetary quantities (amounts, gas fees, balances, stakes, rewards) are
  exact rationals `ℚ`, the mathematical reading of the Python decimals.
* The SHA-256 hex digests used by `calculate_hash` and `generate_address`
  are modelled by injective formal digests (`sha256_trunc16`,
  `sha256_trunc40`): the code relies on the digest being collision-free,
  and no claim depends on a particular digest value.
* ECDSA signatures are modelled by a record of the signing key and the
  signed message, with `verify_signature` checking that the signer's
  derived public key matches; this preserves exactly the control flow of
  `utils.sign_data` / `utils.verify_signature`.
* Python's `datetime.now()` timestamps and `random` draws are passed in as
  explicit parameters (`now`, `nonce`, `draw`) wherever the source consults
  them.
* The Python `dict` of accounts (keyed by address, insertion ordered) is an
  insertion-ordered list of `Account`s; lookup takes the first entry with
  the given address and mutation updates that entry in place, which agrees
  with dict semantics since the engine never creates two accounts at one
  address.
-/

/-- Formal stand-in for `hashlib.sha256(s.encode()).hexdigest()[:16]`:
an injective digest (the code treats the 16-hex-character digest as
collision-free). -/
def sha256_trunc16 (s : String) : String := "sha256x16:" ++ s

/-- Formal stand-in for `hashlib.sha256(s.encode()).hexdigest()[:40]`,
used by `utils.generate_address`. -/
def sha256_trunc40 (s : String) : String := "sha256x40:" ++ s

/-- `utils.generate_address`: address = `"0x"` + truncated digest of the
public key hex string. -/
def generate_address (public_key_hex : String) : String :=
  "0x" ++ sha256_trunc40 public_key_hex

/-- Rendering of a rational into the hash preimage, standing in for
Python's string formatting of the numeric amount inside an f-string. -/
def ratStr (q : ℚ) : String := toString q.num ++ "/" ++ toString q.den

/-- Public key derived from a private key (ECDSA key correspondence,
abstracted). -/
def pub_of_priv (private_key_hex : String) : String := "pub:" ++ private_key_hex

/-- An ECDSA signature, modelled as the signing key together with the signed
message (`utils.sign_data` output). -/
structure Sig where
  signerPriv : String
  message : String
deriving DecidableEq

/-- `utils.sign_data(private_key, data)`. -/
def sign_data (private_key_hex : String) (data : String) : Sig :=
  ⟨private_key_hex, data⟩

/-- `utils.verify_signature(public_key, data, signature)`: true when the
signature was produced over `data` by the private key matching
`public_key`. -/
def verify_signature (public_key_hex : String) (data : String) (sig : Sig) : Bool :=
  decide (pub_of_priv sig.signerPriv = public_key_hex) && decide (sig.message = data)

/-- `Transaction` (blockchain.py lines 8-62). `signature` is `None` or a
signature value. -/
structure Transaction where
  sender : String
  receiver : String
  amount : ℚ
  gas_fee : ℚ
  timestamp : String
  tx_hash : String
  signature : Option Sig
deriving DecidableEq

/-- `Transaction.calculate_hash`: digest of
`f"{self.sender}{self.receiver}{self.amount}{self.timestamp}"`. -/
def Transaction.calculate_hash (tx : Transaction) : String :=
  sha256_trunc16 (tx.sender ++ tx.receiver ++ ratStr tx.amount ++ tx.timestamp)

/-- The `Transaction.__init__` path used by `Account.send`: fresh
transaction with `timestamp = now`, hash computed, unsigned. -/
def Transaction.create (sender receiver : String) (amount gas_fee : ℚ)
    (now : String) : Transaction :=
  { sender := sender, receiver := receiver, amount := amount, gas_fee := gas_fee,
    timestamp := now,
    tx_hash := sha256_trunc16 (sender ++ receiver ++ ratStr amount ++ now),
    signature := none }

/-- `Transaction.sign_transaction`. -/
def Transaction.sign (tx : Transaction) (private_key : String) : Transaction :=
  { tx with signature := some (sign_data private_key tx.tx_hash) }

/-- `Transaction.verify_transaction`: `False` when unsigned, else signature
verification against the given public key. -/
def Transaction.verify (tx : Transaction) (public_key : String) : Bool :=
  match tx.signature with
  | none => false
  | some s => verify_signature public_key tx.tx_hash s

/-- The wire/JSON form of a transaction written by `Transaction.to_dict`. -/
structure TransactionDict where
  sender : String
  receiver : String
  amount : ℚ
  gas_fee : ℚ
  timestamp : String
  tx_hash : String
  signature : Option Sig
deriving DecidableEq

/-- `Transaction.to_dict`. -/
def Transaction.to_dict (tx : Transaction) : TransactionDict :=
  { sender := tx.sender, receiver := tx.receiver, amount := tx.amount,
    gas_fee := tx.gas_fee, timestamp := tx.timestamp, tx_hash := tx.tx_hash,
    signature := tx.signature }

/-- `Transaction.from_dict` followed by `Transaction.__init__`'s defaulting:
a falsy (empty) timestamp is replaced by `datetime.now()` (the `now`
parameter) and a falsy (empty) stored hash is recomputed. -/
def Transaction.from_dict (now : String) (d : TransactionDict) : Transaction :=
  let ts := if d.timestamp = "" then now else d.timestamp
  { sender := d.sender, receiver := d.receiver, amount := d.amount,
    gas_fee := d.gas_fee, timestamp := ts,
    tx_hash := if d.tx_hash = ""
               then sha256_trunc16 (d.sender ++ d.receiver ++ ratStr d.amount ++ ts)
               else d.tx_hash,
    signature := d.signature }

/-- `Block` (blockchain.py lines 65-122). -/
structure Block where
  number : ℕ
  transactions : List Transaction
  validator : String
  previous_hash : String
  timestamp : String
  nonce : ℕ
  hash : String
deriving DecidableEq

/-- `''.join([tx.tx_hash for tx in self.transactions])`. -/
def txHashesConcat (txs : List Transaction) : String :=
  txs.foldl (fun acc tx => acc ++ tx.tx_hash) ""

/-- Digest of
`f"{self.number}{tx_hashes}{self.validator}{self.previous_hash}{self.nonce}"`. -/
def blockContentHash (number : ℕ) (transactions : List Transaction)
    (validator previous_hash : String) (nonce : ℕ) : String :=
  sha256_trunc16 (toString number ++ txHashesConcat transactions ++ validator
    ++ previous_hash ++ toString nonce)

/-- `Block.calculate_hash`. -/
def Block.calculate_hash (b : Block) : String :=
  blockContentHash b.number b.transactions b.validator b.previous_hash b.nonce

/-- The `Block.__init__` path used by `Validator.propose_block`: fresh block
with given timestamp and nonce, hash computed from the contents. -/
def Block.create (number : ℕ) (transactions : List Transaction)
    (validator_name previous_hash now : String) (nonce : ℕ) : Block :=
  { number := number, transactions := transactions, validator := validator_name,
    previous_hash := previous_hash, timestamp := now, nonce := nonce,
    hash := blockContentHash number transactions validator_name previous_hash nonce }

/-- `Block.get_total_fees`. -/
def Block.get_total_fees (b : Block) : ℚ :=
  (b.transactions.map Transaction.gas_fee).sum

/-- The wire/JSON form of a block written by `Block.to_dict`. -/
structure BlockDict where
  number : ℕ
  transactions : List TransactionDict
  validator : String
  previous_hash : String
  timestamp : String
  nonce : ℕ
  hash : String
deriving DecidableEq

/-- `Block.to_dict`. -/
def Block.to_dict (b : Block) : BlockDict :=
  { number := b.number, transactions := b.transactions.map Transaction.to_dict,
    validator := b.validator, previous_hash := b.previous_hash,
    timestamp := b.timestamp, nonce := b.nonce, hash := b.hash }

/-- `Block.from_dict` followed by `Block.__init__`'s defaulting: a falsy
(empty) timestamp is replaced by `now`, the nonce is passed through
(`is not None` holds for a present field), and a falsy (empty) stored hash
is recomputed. -/
def Block.from_dict (now : String) (d : BlockDict) : Block :=
  let txs := d.transactions.map (Transaction.from_dict now)
  let ts := if d.timestamp = "" then now else d.timestamp
  { number := d.number, transactions := txs, validator := d.validator,
    previous_hash := d.previous_hash, timestamp := ts, nonce := d.nonce,
    hash := if d.hash = ""
            then blockContentHash d.number txs d.validator d.previous_hash d.nonce
            else d.hash }

/-- `Validator` (blockchain.py lines 125-177). -/
structure Validator where
  name : String
  stake : ℚ
  reward_address : String
  blocks_proposed : ℕ
  total_rewards : ℚ
  is_active : Bool
deriving DecidableEq

/-- The fixed base reward (`0.01`) used by `propose_block` and
`_apply_block_state`. -/
def base_reward : ℚ := 1 / 100

/-- `Validator.propose_block`: builds the block, computes
`base_reward + gas fees`, and bumps the validator's counters. Returns the
block, the total reward and the updated validator. -/
def Validator.propose_block (v : Validator) (block_number : ℕ)
    (transactions : List Transaction) (previous_hash now : String) (nonce : ℕ) :
    Block × ℚ × Validator :=
  let block := Block.create block_number transactions v.name previous_hash now nonce
  let total_reward := base_reward + block.get_total_fees
  (block, total_reward,
    { v with blocks_proposed := v.blocks_proposed + 1,
             total_rewards := v.total_rewards + total_reward })

/-- The wire/JSON form of a validator written by `Validator.to_dict`. -/
structure ValidatorDict where
  name : String
  stake : ℚ
  reward_address : String
  blocks_proposed : ℕ
  total_rewards : ℚ
  is_active : Bool
deriving DecidableEq

/-- `Validator.to_dict`. -/
def Validator.to_dict (v : Validator) : ValidatorDict :=
  { name := v.name, stake := v.stake, reward_address := v.reward_address,
    blocks_proposed := v.blocks_proposed, total_rewards := v.total_rewards,
    is_active := v.is_active }

/-- `Validator.from_dict` (the `reward_address` key is always present on
dictionaries produced by `to_dict`, so the `data.get('address')` fallback
is not consulted). -/
def Validator.from_dict (d : ValidatorDict) : Validator :=
  { name := d.name, stake := d.stake, reward_address := d.reward_address,
    blocks_proposed := d.blocks_proposed, total_rewards := d.total_rewards,
    is_active := d.is_active }

/-- `Account` (blockchain.py lines 180-226). `public_key` is `None` or a
hex string. -/
structure Account where
  name : String
  address : String
  public_key : Option String
  balance : ℚ
deriving DecidableEq

/-- `Account.send`: if the balance covers `amount + gas_fee`, debit the
sender, build (and, when a private key is supplied, sign) the transaction;
otherwise return `None` and leave the account unchanged. Returns the
optional transaction and the updated account. -/
def Account.send (a : Account) (receiver_address : String) (amount : ℚ)
    (private_key : Option String) (gas_fee : ℚ) (now : String) :
    Option Transaction × Account :=
  if a.balance ≥ amount + gas_fee then
    let a' := { a with balance := a.balance - (amount + gas_fee) }
    let tx := Transaction.create a.address receiver_address amount gas_fee now
    let tx := match private_key with
              | some pk => tx.sign pk
              | none => tx
    (some tx, a')
  else (none, a)

/-- `Account.receive`. -/
def Account.receive (a : Account) (amount : ℚ) : Account :=
  { a with balance := a.balance + amount }

/-- The wire/JSON form of an account written by `Account.to_dict`. -/
structure AccountDict where
  name : String
  address : String
  public_key : Option String
  balance : ℚ
deriving DecidableEq

/-- `Account.to_dict`: `serialize_key` is the identity on hex strings, and
the Python truthiness test `if self.public_key` maps both `None` and the
empty string to `None`. -/
def Account.to_dict (a : Account) : AccountDict :=
  { name := a.name, address := a.address,
    public_key := match a.public_key with
                  | some k => if k = "" then none else some k
                  | none => none,
    balance := a.balance }

/-- `Account.from_dict`: `if data.get('public_key')` is again Python
truthiness, so `None` and the empty string both deserialize to `None`. -/
def Account.from_dict (d : AccountDict) : Account :=
  { name := d.name, address := d.address,
    public_key := match d.public_key with
                  | some k => if k = "" then none else some k
                  | none => none,
    balance := d.balance }

/-- Lookup in the address-keyed account map (`self.accounts[addr]` /
`addr in self.accounts`): the first entry with the given address. -/
def getAccount (accounts : List Account) (addr : String) : Option Account :=
  accounts.find? (fun a => decide (a.address = addr))

/-- Balance of an address, reading a missing account as `0` (the balance a
lazily-materialized account starts with). -/
def balanceOf (accounts : List Account) (addr : String) : ℚ :=
  match getAccount accounts addr with
  | some a => a.balance
  | none => 0

/-- In-place mutation of the balance of the account at `addr`, as performed
on the Python `Account` object held in the dict; a missing address leaves
the map unchanged. -/
def updateBalance (accounts : List Account) (addr : String) (f : ℚ → ℚ) :
    List Account :=
  match accounts with
  | [] => []
  | a :: rest =>
      if a.address = addr then { a with balance := f a.balance } :: rest
      else a :: updateBalance rest addr f

/-- The `create_account` body specialised to an explicit address: insert a
fresh account if the address is unknown, otherwise keep the existing one. -/
def ensureAccount (accounts : List Account) (name addr : String)
    (pk : Option String) (bal : ℚ) : List Account :=
  if (getAccount accounts addr).isSome then accounts
  else accounts ++ [{ name := name, address := addr, public_key := pk, balance := bal }]

/-- The full ledger-engine state (`ProofOfStakeBlockchain` instance
attributes). -/
structure ChainState where
  validators : List Validator
  blockchain : List Block
  pending_transactions : List Transaction
  accounts : List Account
  current_block_number : ℕ
deriving DecidableEq

/-- The hardcoded DevNet treasury public key. -/
def treasury_pub : String :=
  "cc70e61235e2f9a1282667df6f04b0b6e32d0ca56360be7c19521e3ec675e3c9b8008df6532c2777f6d1728f8681169efbde78785ce53118a6181f7d122ae4f8"

/-- `self.treasury_address = utils.generate_address(self.treasury_pub)`. -/
def treasury_address : String := generate_address treasury_pub

/-- The treasury account seeded at genesis and re-seeded by
`rebuild_state`. -/
def treasuryAccount : Account :=
  { name := "Treasury", address := treasury_address,
    public_key := some treasury_pub, balance := 1000000 }

/-- The genesis block built in `ProofOfStakeBlockchain.__init__` (fixed
timestamp and nonce; the hash defaults to `calculate_hash`). -/
def genesis_block : Block :=
  Block.create 0 [] "Genesis" "0000000000000000" "2024-01-01 00:00:00" 0

/-- `ProofOfStakeBlockchain.__init__` with the default genesis validator
name. -/
def initState : ChainState :=
  { validators := [], blockchain := [genesis_block], pending_transactions := [],
    accounts := [treasuryAccount], current_block_number := 0 }

/-- `create_account` with an explicit address (every call site modelled here
passes one; the random-address fallback is the `address` argument chosen by
the caller's environment). Returns only the state: the returned `Account`
is the entry at `address` afterwards. -/
def ChainState.create_account (s : ChainState) (name : String)
    (initial_balance : ℚ) (address : String) (public_key : Option String) :
    ChainState :=
  { s with accounts := ensureAccount s.accounts name address public_key initial_balance }

/-- `add_validator`: rejects stake below the minimum (32) and duplicate
names; when no reward address is supplied, creates a zero-balance wallet
account at the freshly generated `fresh_wallet_address` (the random
fallback address of `create_account`) and uses that address. -/
def ChainState.add_validator (s : ChainState) (name : String) (stake : ℚ)
    (reward_address : Option String) (fresh_wallet_address : String) :
    ChainState × Option Validator :=
  if stake < 32 then (s, none)
  else if s.validators.any (fun v => decide (v.name = name)) then (s, none)
  else
    match reward_address with
    | some addr =>
        let v : Validator :=
          { name := name, stake := stake, reward_address := addr,
            blocks_proposed := 0, total_rewards := 0, is_active := true }
        ({ s with validators := s.validators ++ [v] }, some v)
    | none =>
        let s1 := s.create_account (name ++ "_Wallet") 0 fresh_wallet_address none
        let v : Validator :=
          { name := name, stake := stake, reward_address := fresh_wallet_address,
            blocks_proposed := 0, total_rewards := 0, is_active := true }
        ({ s1 with validators := s1.validators ++ [v] }, some v)

/-- `add_transaction`: unknown sender fails; the receiver is lazily
materialized; the sender account's `send` performs the balance check and
speculative debit; when the sender holds a public key the signature must
verify, otherwise the debit is rolled back and the call fails; on success
the transaction is appended to the mempool. -/
def ChainState.add_transaction (s : ChainState) (sender_address receiver_address : String)
    (amount : ℚ) (private_key : Option String) (gas_fee : ℚ) (now : String) :
    ChainState × Bool :=
  match getAccount s.accounts sender_address with
  | none => (s, false)
  | some _ =>
    let s1 := s.create_account "Unknown" 0 receiver_address none
    match getAccount s1.accounts sender_address with
    | none => (s1, false)
    | some sender =>
      match sender.send receiver_address amount private_key gas_fee now with
      | (none, _) => (s1, false)
      | (some tx, sender') =>
        let s2 := { s1 with
          accounts := updateBalance s1.accounts sender_address (fun _ => sender'.balance) }
        match sender.public_key with
        | some pub =>
            if tx.verify pub then
              ({ s2 with pending_transactions := s2.pending_transactions ++ [tx] }, true)
            else
              ({ s2 with accounts :=
                   updateBalance s2.accounts sender_address (fun b => b + (amount + gas_fee)) },
               false)
        | none =>
            ({ s2 with pending_transactions := s2.pending_transactions ++ [tx] }, true)

/-- `add_remote_transaction`: materialize an unknown sender at zero balance,
reject a duplicate hash, speculatively debit the sender (both branches of
the Python balance test deduct identically, possibly driving the balance
negative), and append to the mempool. -/
def ChainState.add_remote_transaction (s : ChainState) (tx : Transaction) :
    ChainState × Bool :=
  let s1 := s.create_account "UnknownSender" 0 tx.sender none
  if s1.pending_transactions.any (fun t => decide (t.tx_hash = tx.tx_hash)) then
    (s1, false)
  else
    let s2 := { s1 with
      accounts := updateBalance s1.accounts tx.sender (fun b => b - (tx.amount + tx.gas_fee)) }
    ({ s2 with pending_transactions := s2.pending_transactions ++ [tx] }, true)

/-- Sum of the stakes of a validator list. -/
def cumStake (vs : List Validator) : ℚ := (vs.map Validator.stake).sum

/-- The selection loop of `select_validator`: walk the validators in list
order, skipping inactive ones, accumulating active stake, returning the
position (in the full list) of the first active validator whose cumulative
stake is `≥` the draw. Skipping inactive validators in one pass is the
same walk the source performs over the pre-filtered active list, with
positions kept in the full list so the caller can mutate the selected
object in place. -/
def selectIdxLoop (vs : List Validator) (pos : ℕ) (draw cumulative : ℚ) :
    Option ℕ :=
  match vs with
  | [] => none
  | v :: rest =>
      if v.is_active then
        if draw ≤ cumulative + v.stake then some pos
        else selectIdxLoop rest (pos + 1) draw (cumulative + v.stake)
      else selectIdxLoop rest (pos + 1) draw cumulative

/-- Position of the first active validator (`active_validators[0]`). -/
def firstActiveIdx (vs : List Validator) (pos : ℕ) : Option ℕ :=
  match vs with
  | [] => none
  | v :: rest => if v.is_active then some pos else firstActiveIdx rest (pos + 1)

/-- `select_validator`, returning the position in `validators` of the
selected validator; `draw` is the value of
`random.uniform(0, total_stake)`. `None` with no active validator; the
first active validator when the total active stake is zero or the loop
falls through. -/
def ChainState.select_validator_idx (s : ChainState) (draw : ℚ) : Option ℕ :=
  match firstActiveIdx s.validators 0 with
  | none => none
  | some i0 =>
      let total := cumStake (s.validators.filter (fun v => v.is_active))
      if total = 0 then some i0
      else
        match selectIdxLoop s.validators 0 draw 0 with
        | some i => some i
        | none => some i0

/-- `select_validator` as the source returns it: the validator object. -/
def ChainState.select_validator (s : ChainState) (draw : ℚ) : Option Validator :=
  (s.select_validator_idx draw).bind (fun i => s.validators.get? i)

/-- `mine_block`: fails with no validators or no selectable validator;
otherwise takes the `max_transactions` oldest pending transactions off the
mempool, has the selected validator propose a block on the current head
(bumping its counters), credits every included receiver with its amount,
credits the validator's reward address with `base_reward + fees`
(materializing missing accounts), and appends the block. `draw`, `now` and
`nonce` are the random draw, clock reading and random nonce the source
obtains from its environment. (On an empty chain the source would raise;
modelled as failure — the chain always contains at least genesis.) -/
def ChainState.mine_block (s : ChainState) (draw : ℚ) (now : String) (nonce : ℕ)
    (max_transactions : ℕ) : ChainState × Option Block :=
  if s.validators = [] then (s, none)
  else
    match s.select_validator_idx draw with
    | none => (s, none)
    | some i =>
      match s.validators.get? i with
      | none => (s, none)
      | some v =>
        match s.blockchain.getLast? with
        | none => (s, none)
        | some last =>
          let txs := s.pending_transactions.take max_transactions
          let rest := s.pending_transactions.drop max_transactions
          let n := s.current_block_number + 1
          let res := v.propose_block n txs last.hash now nonce
          let accountsA := txs.foldl
            (fun accs tx =>
              updateBalance (ensureAccount accs "Unknown" tx.receiver none 0)
                tx.receiver (fun b => b + tx.amount)) s.accounts
          let accountsB :=
            updateBalance
              (ensureAccount accountsA (v.name ++ "_Wallet") v.reward_address none 0)
              v.reward_address (fun b => b + res.2.1)
          ({ s with validators := s.validators.set i res.2.2,
                    pending_transactions := rest,
                    current_block_number := n,
                    accounts := accountsB,
                    blockchain := s.blockchain ++ [res.1] }, some res.1)

/-- The per-transaction body of `_apply_block_state`: materialize missing
sender/receiver accounts, then blindly debit the sender by
`amount + gas_fee` and credit the receiver by `amount`. -/
def applyTxAccounts (accs : List Account) (tx : Transaction) : List Account :=
  let a1 := ensureAccount accs "UnknownSender" tx.sender none 0
  let a2 := ensureAccount a1 "UnknownReceiver" tx.receiver none 0
  let a3 := updateBalance a2 tx.sender (fun b => b - (tx.amount + tx.gas_fee))
  updateBalance a3 tx.receiver (fun b => b + tx.amount)

/-- `_apply_block_state` at the level of the account map: apply every
transaction, then credit the block validator's reward address with
`0.01 + total fees` when the validator name is non-empty and known. -/
def applyBlockAccounts (validators : List Validator) (accs : List Account)
    (block : Block) : List Account :=
  let a := block.transactions.foldl applyTxAccounts accs
  if block.validator = "" then a
  else
    match validators.find? (fun v => decide (v.name = block.validator)) with
    | some val =>
        updateBalance
          (ensureAccount a (val.name ++ "_Wallet") val.reward_address none 0)
          val.reward_address (fun b => b + (base_reward + block.get_total_fees))
    | none => a

/-- `_apply_block_state`. -/
def ChainState.apply_block_state (s : ChainState) (block : Block) : ChainState :=
  { s with accounts := applyBlockAccounts s.validators s.accounts block }

/-- `rebuild_state`: reset the accounts to the freshly re-seeded treasury,
clear the mempool, and replay every non-genesis block in chain order. -/
def ChainState.rebuild_state (s : ChainState) : ChainState :=
  { s with
    accounts := (s.blockchain.drop 1).foldl (applyBlockAccounts s.validators)
      [treasuryAccount],
    pending_transactions := [] }

/-- The speculative-debit reversal performed by `add_block_from_network`
for one included transaction: when its hash matches a locally pending one
and the sender account exists, refund `amount + gas_fee` to the sender. -/
def revertStep (localPendingHashes : List String) (accs : List Account)
    (tx : Transaction) : List Account :=
  if tx.tx_hash ∈ localPendingHashes then
    if (getAccount accs tx.sender).isSome then
      updateBalance accs tx.sender (fun b => b + (tx.amount + tx.gas_fee))
    else accs
  else accs

/-- `add_block_from_network` (the block has already been deserialized):
reject unless the block extends the head directly; revert the speculative
debit of every included transaction whose hash matches a locally pending
one (when the sender account exists); apply the canonical block effects;
append the block; set the block counter; purge included transactions from
the mempool. -/
def ChainState.add_block_from_network (s : ChainState) (block : Block) :
    ChainState × Bool :=
  match s.blockchain.getLast? with
  | none => (s, false)
  | some last =>
    if block.number ≠ last.number + 1 then (s, false)
    else if block.previous_hash ≠ last.hash then (s, false)
    else
      let localPendingHashes := s.pending_transactions.map Transaction.tx_hash
      let reverted := block.transactions.foldl (revertStep localPendingHashes)
        s.accounts
      let applied := applyBlockAccounts s.validators reverted block
      let newHashes := block.transactions.map Transaction.tx_hash
      ({ s with accounts := applied,
                blockchain := s.blockchain ++ [block],
                current_block_number := block.number,
                pending_transactions :=
                  s.pending_transactions.filter
                    (fun t => decide (t.tx_hash ∉ newHashes)) },
       true)

/-- `is_chain_valid`: for every index `i ≥ 1`, the block links to its
predecessor's stored hash and its own stored hash recomputes; indices `0`
and chains of length `≤ 1` are never inspected. -/
def is_chain_valid : List Block → Bool
  | [] => true
  | [_] => true
  | b0 :: b1 :: rest =>
      (decide (b1.previous_hash = b0.hash) && decide (b1.hash = b1.calculate_hash))
        && is_chain_valid (b1 :: rest)

/-- `replace_chain` (the candidate has already been deserialized): adopt
when strictly longer and valid, set the block counter, and rebuild the
account state from the new history. -/
def ChainState.replace_chain (s : ChainState) (new_chain : List Block) :
    ChainState × Bool :=
  if new_chain.length > s.blockchain.length ∧ is_chain_valid new_chain = true then
    (ChainState.rebuild_state
      { s with blockchain := new_chain,
               current_block_number := new_chain.length - 1 }, true)
  else (s, false)

/-- One ledger-engine operation together with the environment inputs
(clock readings, random draws, generated addresses) the source obtains as
it runs. -/
inductive Op where
  | create_account (name : String) (initial_balance : ℚ) (address : String)
      (public_key : Option String)
  | add_validator (name : String) (stake : ℚ) (reward_address : Option String)
      (fresh_wallet_address : String)
  | add_transaction (sender receiver : String) (amount : ℚ)
      (private_key : Option String) (gas_fee : ℚ) (now : String)
  | add_remote_transaction (tx : Transaction)
  | mine_block (draw : ℚ) (now : String) (nonce : ℕ) (max_transactions : ℕ)
  | add_block_from_network (block : Block)
  | replace_chain (new_chain : List Block)
  | rebuild_state

/-- State transition of one engine operation (return values dropped). -/
def Op.apply (s : ChainState) : Op → ChainState
  | .create_account n b a pk => s.create_account n b a pk
  | .add_validator n st ra fa => (s.add_validator n st ra fa).1
  | .add_transaction se re am pk g now => (s.add_transaction se re am pk g now).1
  | .add_remote_transaction tx => (s.add_remote_transaction tx).1
  | .mine_block d now non m => (s.mine_block d now non m).1
  | .add_block_from_network b => (s.add_block_from_network b).1
  | .replace_chain c => (s.replace_chain c).1
  | .rebuild_state => s.rebuild_state

/-- The state reached by running a sequence of engine operations from the
freshly initialized engine. -/
def runOps (ops : List Op) : ChainState := ops.foldl Op.apply initState

/-- `numbersFrom c i` states that the blocks of `c` are numbered
`i, i+1, i+2, ...` in order. -/
def numbersFrom : List Block → ℕ → Bool
  | [], _ => true
  | b :: rest, i => decide (b.number = i) && numbersFrom rest (i + 1)

/-- The chain-shape invariant of claim C8: the block counter equals
`len(chain) - 1` and the block at index `i` carries number `i`. -/
def chainShapeInv (s : ChainState) : Prop :=
  s.current_block_number = s.blockchain.length - 1 ∧
    numbersFrom s.blockchain 0 = true

/-! ### Helper lemmas about the account map -/


theorem getAccount_nil (addr : String) : getAccount [] addr = none := rfl

theorem getAccount_cons (a : Account) (rest : List Account) (addr : String) :
    getAccount (a :: rest) addr =
      if a.address = addr then some a else getAccount rest addr := by
  unfold getAccount
  by_cases h : a.address = addr
  · rw [List.find?_cons_of_pos _ (by simp [h]), if_pos h]
  · rw [List.find?_cons_of_neg _ (by simp [h]), if_neg h]

theorem getAccount_address (accs : List Account) (addr : String) (x : Account)
    (h : getAccount accs addr = some x) : x.address = addr := by
  have := List.find?_some h
  simpa using this

theorem updateBalance_cons (a : Account) (rest : List Account) (addr : String)
    (f : ℚ → ℚ) :
    updateBalance (a :: rest) addr f =
      if a.address = addr then { a with balance := f a.balance } :: rest
      else a :: updateBalance rest addr f := rfl

theorem getAccount_append (accs : List Account) (x : Account) (addr : String) :
    getAccount (accs ++ [x]) addr =
      match getAccount accs addr with
      | some a => some a
      | none => if x.address = addr then some x else none := by
  induction accs with
  | nil => simp [getAccount_cons, getAccount_nil]
  | cons a rest ih =>
      by_cases h : a.address = addr
      · simp [getAccount_cons, h]
      · simp only [List.cons_append, getAccount_cons, h, if_false, ih]

theorem getAccount_ensure_of_isSome (accs : List Account) (n a : String)
    (pk : Option String) (b : ℚ) (addr : String)
    (h : (getAccount accs addr).isSome) :
    getAccount (ensureAccount accs n a pk b) addr = getAccount accs addr := by
  unfold ensureAccount
  split
  · rfl
  · rw [getAccount_append]
    cases hga : getAccount accs addr with
    | some x => rfl
    | none => rw [hga] at h; simp at h

theorem isSome_getAccount_ensure (accs : List Account) (n a : String)
    (pk : Option String) (b : ℚ) (addr : String)
    (h : (getAccount accs addr).isSome) :
    (getAccount (ensureAccount accs n a pk b) addr).isSome := by
  rw [getAccount_ensure_of_isSome accs n a pk b addr h]; exact h

theorem balanceOf_ensure_zero (accs : List Account) (n a : String)
    (pk : Option String) (addr : String) :
    balanceOf (ensureAccount accs n a pk 0) addr = balanceOf accs addr := by
  unfold ensureAccount
  split
  · rfl
  · unfold balanceOf
    rw [getAccount_append]
    cases hga : getAccount accs addr with
    | some x => rfl
    | none =>
        by_cases h : a = addr
        · simp [h]
        · simp [h]

theorem isSome_getAccount_ensure_same (accs : List Account) (n a : String)
    (pk : Option String) (b : ℚ) :
    (getAccount (ensureAccount accs n a pk b) a).isSome := by
  unfold ensureAccount
  split
  · assumption
  · rw [getAccount_append]
    cases hga : getAccount accs a with
    | some x => simp
    | none => simp

theorem getAccount_updateBalance_other (accs : List Account) (a : String)
    (f : ℚ → ℚ) (addr : String) (h : addr ≠ a) :
    getAccount (updateBalance accs a f) addr = getAccount accs addr := by
  induction accs with
  | nil => rfl
  | cons x rest ih =>
      rw [updateBalance_cons]
      by_cases hxa : x.address = a
      · rw [if_pos hxa, getAccount_cons, getAccount_cons]
        have hxaddr : ¬ x.address = addr := by
          rw [hxa]; exact fun hc => h hc.symm
        simp [hxaddr]
      · rw [if_neg hxa, getAccount_cons, getAccount_cons, ih]

theorem isSome_getAccount_updateBalance (accs : List Account) (a : String)
    (f : ℚ → ℚ) (addr : String) :
    (getAccount (updateBalance accs a f) addr).isSome =
      (getAccount accs addr).isSome := by
  induction accs with
  | nil => rfl
  | cons x rest ih =>
      rw [updateBalance_cons]
      by_cases hxa : x.address = a
      · rw [if_pos hxa, getAccount_cons, getAccount_cons]
        by_cases hxaddr : x.address = addr
        · simp [hxaddr]
        · simp [hxaddr]
      · rw [if_neg hxa, getAccount_cons, getAccount_cons]
        by_cases hxaddr : x.address = addr
        · simp [hxaddr]
        · simp [hxaddr, ih]

theorem balanceOf_updateBalance_same (accs : List Account) (a : String)
    (f : ℚ → ℚ) (h : (getAccount accs a).isSome) :
    balanceOf (updateBalance accs a f) a = f (balanceOf accs a) := by
  induction accs with
  | nil => rw [getAccount_nil] at h; simp at h
  | cons x rest ih =>
      rw [updateBalance_cons]
      by_cases hxa : x.address = a
      · rw [if_pos hxa]
        unfold balanceOf
        rw [getAccount_cons, getAccount_cons]
        simp [hxa]
      · rw [if_neg hxa]
        rw [getAccount_cons, if_neg hxa] at h
        unfold balanceOf
        rw [getAccount_cons, getAccount_cons, if_neg hxa, if_neg hxa]
        have := ih h
        unfold balanceOf at this
        exact this

theorem balanceOf_updateBalance_other (accs : List Account) (a : String)
    (f : ℚ → ℚ) (addr : String) (h : addr ≠ a) :
    balanceOf (updateBalance accs a f) addr = balanceOf accs addr := by
  unfold balanceOf
  rw [getAccount_updateBalance_other accs a f addr h]

theorem updateBalance_of_none (accs : List Account) (a : String) (f : ℚ → ℚ)
    (h : getAccount accs a = none) : updateBalance accs a f = accs := by
  induction accs with
  | nil => rfl
  | cons x rest ih =>
      rw [getAccount_cons] at h
      by_cases hxa : x.address = a
      · rw [if_pos hxa] at h; simp at h
      · rw [if_neg hxa] at h
        rw [updateBalance_cons, if_neg hxa, ih h]

/-! ### C7: rebuild_state is idempotent -/

/-- C7: `rebuild_state` depends only on the chain and the validator set,
both of which it preserves, so running it twice in succession produces the
very same state — in particular identical account balances at every
address (idempotent replay). -/
theorem rebuild_state_idempotent (s : ChainState) :
    s.rebuild_state.rebuild_state = s.rebuild_state ∧
      ∀ addr, balanceOf s.rebuild_state.rebuild_state.accounts addr =
        balanceOf s.rebuild_state.accounts addr :=
  ⟨rfl, fun _ => rfl⟩

/-! ### C3: replace_chain adopts exactly the strictly-longer valid chains -/

/-- C3: `replace_chain` succeeds exactly when the candidate is strictly
longer than the current chain and passes `is_chain_valid`; on failure the
state (chain included) is untouched; on success the chain is replaced
wholesale by the candidate and the resulting state is `rebuild_state`
applied to the state carrying the new chain (the rebuild the source
invokes). -/
theorem replace_chain_spec (s : ChainState) (cand : List Block) :
    ((s.replace_chain cand).2 = true ↔
      cand.length > s.blockchain.length ∧ is_chain_valid cand = true)
    ∧ ((s.replace_chain cand).2 = false → (s.replace_chain cand).1 = s)
    ∧ ((s.replace_chain cand).2 = true →
        (s.replace_chain cand).1.blockchain = cand ∧
        (s.replace_chain cand).1 =
          ChainState.rebuild_state
            { s with blockchain := cand,
                     current_block_number := cand.length - 1 }) := by
  unfold ChainState.replace_chain
  split
  · rename_i hcond
    exact ⟨by simpa using hcond, by simp, fun _ => ⟨rfl, rfl⟩⟩
  · rename_i hcond
    refine ⟨?_, fun _ => rfl, by simp⟩
    simpa using hcond

/-- A well-formed direct successor of the genesis block, used to exhibit a
successful chain replacement. -/
def c3_next_block : Block :=
  Block.create 1 [] "Val" genesis_block.hash "2024-01-02 00:00:00" 4242

/-- Witness for C3: from the initial state, the two-block candidate
`[genesis, c3_next_block]` is strictly longer and valid, and is adopted
wholesale. -/
theorem replace_chain_spec_witness :
    (initState.replace_chain [genesis_block, c3_next_block]).2 = true ∧
    (initState.replace_chain [genesis_block, c3_next_block]).1.blockchain =
      [genesis_block, c3_next_block] :=
  ⟨(replace_chain_spec initState [genesis_block, c3_next_block]).1.mpr (by decide),
   ((replace_chain_spec initState [genesis_block, c3_next_block]).2.2
      ((replace_chain_spec initState [genesis_block, c3_next_block]).1.mpr
        (by decide))).1⟩

/-! ### C10: is_chain_valid ignores index 0, so a foreign genesis can be
adopted -/

/-- An internally consistent chain head that differs from the shared
genesis block. -/
def c10_foreign_genesis : Block :=
  Block.create 0 [] "Rogue" "0000000000000000" "2030-01-01 00:00:00" 7

/-- A valid direct successor of the foreign genesis. -/
def c10_follow_block : Block :=
  Block.create 1 [] "Rogue" c10_foreign_genesis.hash "2030-01-02 00:00:00" 8

/-- A strictly-longer internally consistent candidate whose block 0 is not
the shared genesis. -/
def c10_chain : List Block := [c10_foreign_genesis, c10_follow_block]

/-- C10: `is_chain_valid` inspects only indices `≥ 1`, so every chain of
length 0 or 1 is valid, and `replace_chain` adopts a strictly-longer
internally consistent candidate whose block 0 differs from the node's
genesis block (the genesis is never compared). -/
theorem chain_validity_ignores_genesis :
    (∀ c : List Block, c.length ≤ 1 → is_chain_valid c = true)
    ∧ c10_foreign_genesis ≠ genesis_block
    ∧ (initState.replace_chain c10_chain).2 = true
    ∧ (initState.replace_chain c10_chain).1.blockchain = c10_chain := by
  refine ⟨?_, by decide, by decide, by decide⟩
  intro c hc
  cases c with
  | nil => rfl
  | cons b t =>
      cases t with
      | nil => rfl
      | cons b2 t2 => simp [List.length_cons] at hc

/-- Witness for C10: the singleton chain holding only the genesis block is
reported valid without inspection. -/
theorem chain_validity_ignores_genesis_witness :
    is_chain_valid [genesis_block] = true :=
  chain_validity_ignores_genesis.1 [genesis_block] (by decide)

/-! ### C9: serialization round trips (corrected) -/

/-- An account whose public key is the *empty* string: Python's truthiness
test in `Account.to_dict` serializes it as `None`, so deserialization does
not restore the original field. -/
def c9_empty_pk_account : Account :=
  { name := "EmptyKey", address := "0xempty", public_key := some "", balance := 5 }

/-- C9 counterexample: the claim's universal round-trip identity fails for
an `Account` whose `public_key` is the empty string (`to_dict` maps it to
`None` via Python truthiness, `from_dict` keeps it `None`). -/
theorem round_trip_fails_on_empty_public_key :
    Account.from_dict (Account.to_dict c9_empty_pk_account) ≠ c9_empty_pk_account := by
  decide

theorem tx_from_to_dict (now : String) (tx : Transaction)
    (h1 : tx.timestamp ≠ "") (h2 : tx.tx_hash ≠ "") :
    Transaction.from_dict now (Transaction.to_dict tx) = tx := by
  obtain ⟨se, re, am, gf, ts, th, sg⟩ := tx
  simp only [Transaction.to_dict, Transaction.from_dict] at *
  simp [h1, h2]

theorem block_from_to_dict (now : String) (b : Block)
    (h1 : b.timestamp ≠ "") (h2 : b.hash ≠ "")
    (h3 : ∀ t ∈ b.transactions, t.timestamp ≠ "" ∧ t.tx_hash ≠ "") :
    Block.from_dict now (Block.to_dict b) = b := by
  obtain ⟨num, txs, val, ph, ts, non, hs⟩ := b
  simp only [Block.to_dict, Block.from_dict] at *
  have htx : (txs.map Transaction.to_dict).map (Transaction.from_dict now) = txs := by
    rw [List.map_map]
    have hcong : ∀ t ∈ txs, (Transaction.from_dict now ∘ Transaction.to_dict) t = id t := by
      intro t ht
      obtain ⟨ha, hb⟩ := h3 t ht
      simpa using tx_from_to_dict now t ha hb
    rw [List.map_congr_left hcong, List.map_id]
  simp [htx, h1, h2]

/-- C9 (amended): serialization round trips are the identity, except where
a Python truthiness test replaces a falsy (empty-string) field during
construction: validators round-trip unconditionally; accounts round-trip
whenever the public key is not the empty string; transactions and blocks
round-trip whenever their timestamps and stored hashes (including those of
the block's transactions) are non-empty; and on the round-tripped copy the
recomputed hash equals the stored hash whenever that held of the
original. -/
theorem serialization_round_trip :
    (∀ v : Validator, Validator.from_dict (Validator.to_dict v) = v)
    ∧ (∀ a : Account, a.public_key ≠ some "" →
        Account.from_dict (Account.to_dict a) = a)
    ∧ (∀ (now : String) (tx : Transaction), tx.timestamp ≠ "" → tx.tx_hash ≠ "" →
        Transaction.from_dict now (Transaction.to_dict tx) = tx)
    ∧ (∀ (now : String) (b : Block), b.timestamp ≠ "" → b.hash ≠ "" →
        (∀ t ∈ b.transactions, t.timestamp ≠ "" ∧ t.tx_hash ≠ "") →
        Block.from_dict now (Block.to_dict b) = b)
    ∧ (∀ (now : String) (tx : Transaction), tx.timestamp ≠ "" → tx.tx_hash ≠ "" →
        tx.tx_hash = tx.calculate_hash →
        (Transaction.from_dict now (Transaction.to_dict tx)).tx_hash =
          (Transaction.from_dict now (Transaction.to_dict tx)).calculate_hash)
    ∧ (∀ (now : String) (b : Block), b.timestamp ≠ "" → b.hash ≠ "" →
        (∀ t ∈ b.transactions, t.timestamp ≠ "" ∧ t.tx_hash ≠ "") →
        b.hash = b.calculate_hash →
        (Block.from_dict now (Block.to_dict b)).hash =
          (Block.from_dict now (Block.to_dict b)).calculate_hash) := by
  refine ⟨fun v => rfl, ?_, tx_from_to_dict, block_from_to_dict, ?_, ?_⟩
  · intro a ha
    obtain ⟨n, ad, pk, bal⟩ := a
    cases pk with
    | none => rfl
    | some k =>
        have hk : k ≠ "" := by
          intro hcontra
          exact ha (by simp [hcontra])
        simp [Account.to_dict, Account.from_dict, hk]
  · intro now tx h1 h2 h3
    rw [tx_from_to_dict now tx h1 h2]
    exact h3
  · intro now b h1 h2 h3 h4
    rw [block_from_to_dict now b h1 h2 h3]
    exact h4

/-- A concrete signed transaction used in round-trip witnesses. -/
def c9_sample_tx : Transaction :=
  { sender := "0xa", receiver := "0xb", amount := 3, gas_fee := 1 / 1000,
    timestamp := "2024-06-01 10:00:00",
    tx_hash := sha256_trunc16 ("0xa" ++ "0xb" ++ ratStr 3 ++ "2024-06-01 10:00:00"),
    signature := some (sign_data "k1" "h") }

/-- Witness for C9 (amended): the concrete transaction `c9_sample_tx`
round-trips bit-for-bit. -/
theorem serialization_round_trip_witness :
    Transaction.from_dict "2025-01-01 00:00:00"
      (Transaction.to_dict c9_sample_tx) = c9_sample_tx :=
  serialization_round_trip.2.2.1 "2025-01-01 00:00:00" c9_sample_tx
    (by decide) (by decide)

/-! ### C2: add_block_from_network accepts exactly direct extensions -/

/-- C5: `add_transaction` fails without any state change when the sender
address is unknown; and when the sender exists but its balance is strictly
below `amount + gas_fee`, it fails leaving the sender's balance and the
mempool exactly as they were (the only state effect is the lazily
materialized receiver stub). -/
theorem add_transaction_failure_spec (s : ChainState)
    (sender receiver : String) (amount gas_fee : ℚ) (pk : Option String)
    (now : String) :
    (getAccount s.accounts sender = none →
      s.add_transaction sender receiver amount pk gas_fee now = (s, false))
    ∧ (∀ acc, getAccount s.accounts sender = some acc →
        acc.balance < amount + gas_fee →
        (s.add_transaction sender receiver amount pk gas_fee now).2 = false
        ∧ balanceOf
            (s.add_transaction sender receiver amount pk gas_fee now).1.accounts
            sender = balanceOf s.accounts sender
        ∧ (s.add_transaction sender receiver amount pk gas_fee now).1.pending_transactions
            = s.pending_transactions) := by
  constructor
  · intro hnone
    unfold ChainState.add_transaction
    simp only [hnone]
  · intro acc hacc hlt
    have hsome : (getAccount s.accounts sender).isSome := by rw [hacc]; rfl
    have hacc1 : getAccount (s.create_account "Unknown" 0 receiver none).accounts sender
        = some acc := by
      show getAccount (ensureAccount s.accounts "Unknown" receiver none 0) sender = some acc
      rw [getAccount_ensure_of_isSome _ _ _ _ _ _ hsome, hacc]
    have hsend : acc.send receiver amount pk gas_fee now = (none, acc) := by
      unfold Account.send
      rw [if_neg (not_le.mpr hlt)]
    unfold ChainState.add_transaction
    simp only [hacc, hacc1, hsend]
    refine ⟨by trivial, ?_, by trivial⟩
    show balanceOf (ensureAccount s.accounts "Unknown" receiver none 0) sender
        = balanceOf s.accounts sender
    exact balanceOf_ensure_zero s.accounts "Unknown" receiver none sender

/-- A one-account state used in the C5 witness. -/
def c5_state : ChainState :=
  { validators := [], blockchain := [genesis_block], pending_transactions := [],
    accounts := [{ name := "Poor", address := "0xp", public_key := none, balance := 1 }],
    current_block_number := 0 }

/-- Witness for C5: submitting a 5-coin transfer from a 1-coin account
fails and leaves the sender balance and the mempool untouched. -/
theorem add_transaction_failure_spec_witness :
    (c5_state.add_transaction "0xp" "0xq" 5 none (1 / 1000) "t").2 = false
    ∧ balanceOf (c5_state.add_transaction "0xp" "0xq" 5 none (1 / 1000) "t").1.accounts
        "0xp" = balanceOf c5_state.accounts "0xp"
    ∧ (c5_state.add_transaction "0xp" "0xq" 5 none (1 / 1000) "t").1.pending_transactions
        = c5_state.pending_transactions :=
  (add_transaction_failure_spec c5_state "0xp" "0xq" 5 (1 / 1000) none "t").2
    { name := "Poor", address := "0xp", public_key := none, balance := 1 }
    (by decide) (by norm_num)

/-! ### C6: mine_block pays the selected validator exactly once -/

theorem get?_set_same {α : Type} (l : List α) (i : ℕ) (a : α) (h : i < l.length) :
    (l.set i a).get? i = some a := by
  induction l generalizing i with
  | nil => simp at h
  | cons x rest ih =>
      cases i with
      | zero => rfl
      | succ j =>
          simp only [List.set_cons_succ, List.get?_cons_succ]
          exact ih j (by simpa using h)

/-- C6: whenever `mine_block` succeeds with validator `v` selected at
position `i`, that validator's `blocks_proposed` goes up by exactly 1 and
its `total_rewards` by exactly `base_reward` plus the gas fees of the
included transactions; the included transactions are the up-to-`maxtx`
oldest mempool entries in insertion order, and exactly they are removed
from the mempool. -/
theorem mine_block_rewards (s : ChainState) (draw : ℚ) (now : String)
    (nonce maxtx : ℕ) (i : ℕ) (v : Validator) (nb : Block)
    (hsel : s.select_validator_idx draw = some i)
    (hv : s.validators.get? i = some v)
    (hsucc : (s.mine_block draw now nonce maxtx).2 = some nb) :
    (s.mine_block draw now nonce maxtx).1.validators.get? i =
      some { v with
        blocks_proposed := v.blocks_proposed + 1,
        total_rewards := v.total_rewards +
          (base_reward +
            ((s.pending_transactions.take maxtx).map Transaction.gas_fee).sum) }
    ∧ nb.transactions = s.pending_transactions.take maxtx
    ∧ (s.mine_block draw now nonce maxtx).1.pending_transactions =
        s.pending_transactions.drop maxtx := by
  have hne : ¬ s.validators = [] := by
    intro h
    rw [h] at hv
    simp at hv
  obtain ⟨hlen, -⟩ := List.get?_eq_some.mp hv
  cases hlast : s.blockchain.getLast? with
  | none =>
      simp only [ChainState.mine_block, if_neg hne, hsel, hv, hlast] at hsucc
      simp at hsucc
  | some last =>
      simp only [ChainState.mine_block, if_neg hne, hsel, hv, hlast] at hsucc ⊢
      obtain rfl : _ = nb := Option.some.inj hsucc
      refine ⟨?_, by trivial, by trivial⟩
      rw [get?_set_same s.validators i _ hlen]
      simp [Validator.propose_block, Block.create, Block.get_total_fees]

/-- Validator fixture for the C6 witness. -/
def c6_validator : Validator :=
  { name := "V", stake := 100, reward_address := "0xw",
    blocks_proposed := 0, total_rewards := 0, is_active := true }

/-- Pending transaction fixture for the C6 witness. -/
def c6_tx : Transaction := Transaction.create "0xa" "0xb" 2 (1 / 1000) "t0"

/-- State fixture for the C6 witness. -/
def c6_state : ChainState :=
  { validators := [c6_validator], blockchain := [genesis_block],
    pending_transactions := [c6_tx], accounts := [], current_block_number := 0 }

/-- The block the C6 witness scenario mines. -/
def c6_block : Block := Block.create 1 [c6_tx] "V" genesis_block.hash "tm" 9

/-- Witness for C6: mining in `c6_state` pays validator `V` exactly
`base_reward + 0.001` and moves the one pending transaction into the
block. -/
theorem mine_block_rewards_witness :
    (c6_state.mine_block 50 "tm" 9 10).1.validators.get? 0 =
      some { c6_validator with
        blocks_proposed := c6_validator.blocks_proposed + 1,
        total_rewards := c6_validator.total_rewards +
          (base_reward +
            ((c6_state.pending_transactions.take 10).map Transaction.gas_fee).sum) }
    ∧ c6_block.transactions = c6_state.pending_transactions.take 10
    ∧ (c6_state.mine_block 50 "tm" 9 10).1.pending_transactions =
        c6_state.pending_transactions.drop 10 :=
  mine_block_rewards c6_state 50 "tm" 9 10 0 c6_validator c6_block
    (by norm_num [ChainState.select_validator_idx, c6_state, firstActiveIdx,
      c6_validator, cumStake, selectIdxLoop])
    rfl
    (by norm_num [ChainState.mine_block, c6_state, c6_validator, c6_tx, c6_block,
      ChainState.select_validator_idx, firstActiveIdx, selectIdxLoop, cumStake,
      Validator.propose_block, Block.create, Block.get_total_fees])

/-! ### C4: weighted validator selection -/

/-- Cumulative active stake of the first `n` validators of the list:
"cumulative stake" in the sense of the selection walk. -/
def activePrefixStake (vs : List Validator) (n : ℕ) : ℚ :=
  cumStake ((vs.take n).filter (fun v => v.is_active))

theorem cumStake_cons (v : Validator) (l : List Validator) :
    cumStake (v :: l) = v.stake + cumStake l := by
  simp [cumStake]

theorem activePrefixStake_zero (vs : List Validator) :
    activePrefixStake vs 0 = 0 := rfl

theorem activePrefixStake_cons (v : Validator) (rest : List Validator) (n : ℕ) :
    activePrefixStake (v :: rest) (n + 1) =
      (if v.is_active then v.stake else 0) + activePrefixStake rest n := by
  unfold activePrefixStake
  rw [List.take_succ_cons]
  by_cases h : v.is_active
  · simp [List.filter_cons, h, cumStake]
  · simp [List.filter_cons, h, cumStake]

theorem firstActiveIdx_isSome (vs : List Validator) (pos : ℕ)
    (hne : vs.filter (fun v => v.is_active) ≠ []) :
    (firstActiveIdx vs pos).isSome := by
  induction vs generalizing pos with
  | nil => simp at hne
  | cons v rest ih =>
      rw [firstActiveIdx]
      by_cases ha : v.is_active
      · rw [if_pos ha]; rfl
      · rw [if_neg ha]
        apply ih
        simpa [List.filter_cons, ha] using hne

theorem firstActiveIdx_none (vs : List Validator) (pos : ℕ)
    (h : vs.filter (fun v => v.is_active) = []) :
    firstActiveIdx vs pos = none := by
  induction vs generalizing pos with
  | nil => rfl
  | cons v rest ih =>
      rw [firstActiveIdx]
      rw [List.filter_cons] at h
      by_cases ha : v.is_active
      · simp [ha] at h
      · rw [if_neg ha]
        exact ih (pos + 1) (by simpa [ha] using h)

theorem firstActiveIdx_spec (vs : List Validator) (pos : ℕ) (i : ℕ)
    (h : firstActiveIdx vs pos = some i) :
    ∃ j v, i = pos + j ∧ vs.get? j = some v ∧ v.is_active = true ∧
      (vs.filter (fun v => v.is_active)).head? = some v := by
  induction vs generalizing pos with
  | nil => simp [firstActiveIdx] at h
  | cons v rest ih =>
      rw [firstActiveIdx] at h
      by_cases ha : v.is_active
      · rw [if_pos ha] at h
        obtain rfl : pos = i := Option.some.inj h
        exact ⟨0, v, by omega, rfl, ha, by simp [List.filter_cons, ha]⟩
      · rw [if_neg ha] at h
        obtain ⟨j, w, hij, hget, hact, hhead⟩ := ih (pos + 1) h
        exact ⟨j + 1, w, by omega, by simpa using hget, hact,
          by simpa [List.filter_cons, ha] using hhead⟩

theorem selectIdxLoop_isSome (vs : List Validator) (pos : ℕ) (draw c : ℚ)
    (hne : vs.filter (fun v => v.is_active) ≠ [])
    (hle : draw ≤ c + cumStake (vs.filter (fun v => v.is_active))) :
    (selectIdxLoop vs pos draw c).isSome := by
  induction vs generalizing pos c with
  | nil => simp at hne
  | cons v rest ih =>
      rw [selectIdxLoop]
      by_cases ha : v.is_active
      · rw [if_pos ha]
        by_cases hd : draw ≤ c + v.stake
        · rw [if_pos hd]; rfl
        · rw [if_neg hd]
          rw [List.filter_cons_of_pos ha, cumStake_cons] at hle
          by_cases hrest : rest.filter (fun v => v.is_active) = []
          · exfalso
            rw [hrest] at hle
            simp [cumStake] at hle
            exact hd hle
          · exact ih (pos + 1) (c + v.stake) hrest (by linarith)
      · rw [if_neg ha]
        rw [List.filter_cons_of_neg (by simpa using ha)] at hle hne
        exact ih (pos + 1) c hne hle

theorem selectIdxLoop_spec (vs : List Validator) (pos : ℕ) (draw c : ℚ) (k : ℕ)
    (h : selectIdxLoop vs pos draw c = some k) :
    ∃ i v, vs.get? i = some v ∧ k = pos + i ∧ v.is_active = true ∧
      draw ≤ c + activePrefixStake vs (i + 1) ∧
      ∀ j w, j < i → vs.get? j = some w → w.is_active = true →
        c + activePrefixStake vs (j + 1) < draw := by
  induction vs generalizing pos c with
  | nil => simp [selectIdxLoop] at h
  | cons v rest ih =>
      rw [selectIdxLoop] at h
      by_cases ha : v.is_active
      · rw [if_pos ha] at h
        by_cases hd : draw ≤ c + v.stake
        · rw [if_pos hd] at h
          obtain rfl : pos = k := Option.some.inj h
          refine ⟨0, v, rfl, by omega, ha, ?_, ?_⟩
          · rw [activePrefixStake_cons, if_pos ha, activePrefixStake_zero]
            linarith
          · intro j w hj _ _
            omega
        · rw [if_neg hd] at h
          obtain ⟨i, w, hget, hk, hact, hle, hmin⟩ := ih (pos + 1) (c + v.stake) h
          refine ⟨i + 1, w, by simpa using hget, by omega, hact, ?_, ?_⟩
          · rw [activePrefixStake_cons, if_pos ha]
            linarith
          · intro j u hj hgetj hactj
            cases j with
            | zero =>
                obtain rfl : v = u := by simpa using hgetj
                rw [activePrefixStake_cons, if_pos ha, activePrefixStake_zero]
                have := lt_of_not_le hd
                linarith
            | succ j2 =>
                have hg2 : rest.get? j2 = some u := by simpa using hgetj
                have := hmin j2 u (by omega) hg2 hactj
                rw [activePrefixStake_cons, if_pos ha]
                linarith
      · rw [if_neg ha] at h
        obtain ⟨i, w, hget, hk, hact, hle, hmin⟩ := ih (pos + 1) c h
        refine ⟨i + 1, w, by simpa using hget, by omega, hact, ?_, ?_⟩
        · rw [activePrefixStake_cons, if_neg ha]
          linarith
        · intro j u hj hgetj hactj
          cases j with
          | zero =>
              obtain rfl : v = u := by simpa using hgetj
              exact absurd hactj (by simpa using ha)
          | succ j2 =>
              have hg2 : rest.get? j2 = some u := by simpa using hgetj
              have := hmin j2 u (by omega) hg2 hactj
              rw [activePrefixStake_cons, if_neg ha]
              linarith

/-- An always-active validator fixture with the given name and stake. -/
def c4_validator (nm : String) (st : ℚ) : Validator :=
  { name := nm, stake := st, reward_address := "0x" ++ nm,
    blocks_proposed := 0, total_rewards := 0, is_active := true }

/-- The spec's worked example: active validators with stakes 10, 20, 70. -/
def c4_state : ChainState :=
  { validators := [c4_validator "A" 10, c4_validator "B" 20, c4_validator "C" 70],
    blockchain := [genesis_block], pending_transactions := [], accounts := [],
    current_block_number := 0 }

/-- C4: `select_validator` returns the first active validator, in
validator-list order, whose cumulative active stake is `≥` the draw
(general characterization under a draw within the total active stake);
in the worked example with stakes [10, 20, 70] a draw of 15 selects the
second validator, 5 the first, and the boundary 100 the third; for every
state with no active validator and every draw it returns `none`, and for
every state with active validators of total stake zero and every draw it
deterministically returns the first active validator. -/
theorem select_validator_spec (s : ChainState) (draw : ℚ)
    (htotal : cumStake (s.validators.filter (fun v => v.is_active)) ≠ 0)
    (hdraw : draw ≤ cumStake (s.validators.filter (fun v => v.is_active))) :
    (∃ i v, s.validators.get? i = some v ∧
        s.select_validator draw = some v ∧
        v.is_active = true ∧
        draw ≤ activePrefixStake s.validators (i + 1) ∧
        ∀ j w, j < i → s.validators.get? j = some w → w.is_active = true →
          activePrefixStake s.validators (j + 1) < draw)
    ∧ c4_state.select_validator 15 = some (c4_validator "B" 20)
    ∧ c4_state.select_validator 5 = some (c4_validator "A" 10)
    ∧ c4_state.select_validator 100 = some (c4_validator "C" 70)
    ∧ (∀ (s2 : ChainState) (d : ℚ),
        s2.validators.filter (fun v => v.is_active) = [] →
        s2.select_validator d = none)
    ∧ (∀ (s2 : ChainState) (d : ℚ),
        s2.validators.filter (fun v => v.is_active) ≠ [] →
        cumStake (s2.validators.filter (fun v => v.is_active)) = 0 →
        s2.select_validator d =
          (s2.validators.filter (fun v => v.is_active)).head?) := by
  have hne : s.validators.filter (fun v => v.is_active) ≠ [] := by
    intro h
    exact htotal (by rw [h]; rfl)
  refine ⟨?_, ?_, ?_, ?_, ?_, ?_⟩
  · obtain ⟨i0, hi0⟩ :=
      Option.isSome_iff_exists.mp (firstActiveIdx_isSome s.validators 0 hne)
    have hloop : (selectIdxLoop s.validators 0 draw 0).isSome :=
      selectIdxLoop_isSome s.validators 0 draw 0 hne (by simpa using hdraw)
    obtain ⟨k, hk⟩ := Option.isSome_iff_exists.mp hloop
    obtain ⟨i, v, hget, hki, hact, hle, hmin⟩ :=
      selectIdxLoop_spec s.validators 0 draw 0 k hk
    have hidx : s.select_validator_idx draw = some k := by
      simp only [ChainState.select_validator_idx, hi0, hk]
      rw [if_neg htotal]
    refine ⟨i, v, hget, ?_, hact, by simpa using hle, ?_⟩
    · show (s.select_validator_idx draw).bind (fun j => s.validators.get? j) = some v
      rw [hidx]
      simpa [hki] using hget
    · intro j w hj hgetj hactj
      have := hmin j w hj hgetj hactj
      simpa using this
  · norm_num [ChainState.select_validator, ChainState.select_validator_idx,
      c4_state, c4_validator, firstActiveIdx, selectIdxLoop, cumStake]
  · norm_num [ChainState.select_validator, ChainState.select_validator_idx,
      c4_state, c4_validator, firstActiveIdx, selectIdxLoop, cumStake]
  · norm_num [ChainState.select_validator, ChainState.select_validator_idx,
      c4_state, c4_validator, firstActiveIdx, selectIdxLoop, cumStake]
  · intro s2 d hempty
    show (s2.select_validator_idx d).bind (fun j => s2.validators.get? j) = none
    have hfa : firstActiveIdx s2.validators 0 = none :=
      firstActiveIdx_none s2.validators 0 hempty
    simp only [ChainState.select_validator_idx, hfa, Option.bind]
  · intro s2 d hne2 h0
    obtain ⟨i0, hi0⟩ :=
      Option.isSome_iff_exists.mp (firstActiveIdx_isSome s2.validators 0 hne2)
    obtain ⟨j, v, hij, hget, hact, hhead⟩ :=
      firstActiveIdx_spec s2.validators 0 i0 hi0
    have hidx : s2.select_validator_idx d = some i0 := by
      simp only [ChainState.select_validator_idx, hi0]
      rw [if_pos h0]
    show (s2.select_validator_idx d).bind (fun j => s2.validators.get? j) = _
    rw [hidx, hhead]
    simpa [hij] using hget

/-- Witness for C4: the worked example at draw 15 (total 100, both
hypotheses concrete), extracting the draw-15 selection. -/
theorem select_validator_spec_witness :
    c4_state.select_validator 15 = some (c4_validator "B" 20) :=
  (select_validator_spec c4_state 15
    (by norm_num [c4_state, c4_validator, cumStake])
    (by norm_num [c4_state, c4_validator, cumStake])).2.1

/-! ### C8: chain numbering across operation sequences -/

theorem numbersFrom_append (c : List Block) (b : Block) (i : ℕ) :
    numbersFrom (c ++ [b]) i =
      (numbersFrom c i && decide (b.number = i + c.length)) := by
  induction c generalizing i with
  | nil => simp [numbersFrom]
  | cons x rest ih =>
      have harith : i + 1 + rest.length = i + (rest.length + 1) := by omega
      simp only [List.cons_append, numbersFrom, List.append_eq, ih (i + 1),
        List.length_cons, harith, Bool.and_assoc]

theorem numbersFrom_getLast (c : List Block) (i : ℕ) (b : Block)
    (hnum : numbersFrom c i = true) (hlast : c.getLast? = some b) :
    b.number + 1 = i + c.length := by
  induction c generalizing i with
  | nil => simp at hlast
  | cons x rest ih =>
      cases rest with
      | nil =>
          simp only [List.getLast?_singleton, Option.some.injEq] at hlast
          subst hlast
          simp only [numbersFrom, Bool.and_eq_true, decide_eq_true_eq] at hnum
          simp [hnum.1]
      | cons y t =>
          rw [List.getLast?_cons_cons] at hlast
          simp only [numbersFrom, Bool.and_eq_true, decide_eq_true_eq] at hnum
          have h2 : numbersFrom (y :: t) (i + 1) = true := by
            simp [numbersFrom, hnum.2.1, hnum.2.2]
          have := ih (i + 1) h2 hlast
          simp only [List.length_cons] at this ⊢
          omega

theorem create_account_chain (s : ChainState) (n : String) (b : ℚ) (a : String)
    (pk : Option String) :
    (s.create_account n b a pk).blockchain = s.blockchain ∧
    (s.create_account n b a pk).current_block_number = s.current_block_number :=
  ⟨rfl, rfl⟩

theorem add_validator_chain (s : ChainState) (n : String) (st : ℚ)
    (ra : Option String) (fa : String) :
    (s.add_validator n st ra fa).1.blockchain = s.blockchain ∧
    (s.add_validator n st ra fa).1.current_block_number =
      s.current_block_number := by
  unfold ChainState.add_validator
  repeat' split <;> try exact ⟨rfl, rfl⟩

theorem add_transaction_chain (s : ChainState) (se re : String) (am : ℚ)
    (pk : Option String) (g : ℚ) (now : String) :
    (s.add_transaction se re am pk g now).1.blockchain = s.blockchain ∧
    (s.add_transaction se re am pk g now).1.current_block_number =
      s.current_block_number := by
  unfold ChainState.add_transaction
  dsimp only
  repeat' split <;> try exact ⟨rfl, rfl⟩

theorem add_remote_transaction_chain (s : ChainState) (tx : Transaction) :
    (s.add_remote_transaction tx).1.blockchain = s.blockchain ∧
    (s.add_remote_transaction tx).1.current_block_number =
      s.current_block_number := by
  unfold ChainState.add_remote_transaction
  dsimp only
  repeat' split <;> try exact ⟨rfl, rfl⟩

theorem rebuild_state_chain (s : ChainState) :
    s.rebuild_state.blockchain = s.blockchain ∧
    s.rebuild_state.current_block_number = s.current_block_number :=
  ⟨rfl, rfl⟩

theorem mine_block_chain (s : ChainState) (d : ℚ) (now : String) (non m : ℕ) :
    ((s.mine_block d now non m).1 = s)
    ∨ (∃ nb, (s.mine_block d now non m).1.blockchain = s.blockchain ++ [nb]
        ∧ nb.number = s.current_block_number + 1
        ∧ (s.mine_block d now non m).1.current_block_number =
            s.current_block_number + 1
        ∧ s.blockchain ≠ []) := by
  unfold ChainState.mine_block
  dsimp only
  split
  · exact Or.inl rfl
  · split
    · exact Or.inl rfl
    · split
      · exact Or.inl rfl
      · rename_i i v hv
        split
        · exact Or.inl rfl
        · rename_i last hlast
          refine Or.inr ⟨_, rfl, rfl, rfl, ?_⟩
          intro hnil
          rw [hnil] at hlast
          simp at hlast

theorem add_block_chain (s : ChainState) (b : Block) :
    ((s.add_block_from_network b).1 = s)
    ∨ (∃ last, s.blockchain.getLast? = some last
        ∧ b.number = last.number + 1
        ∧ (s.add_block_from_network b).1.blockchain = s.blockchain ++ [b]
        ∧ (s.add_block_from_network b).1.current_block_number = b.number) := by
  unfold ChainState.add_block_from_network
  dsimp only
  split
  · exact Or.inl rfl
  · rename_i last hlast
    split
    · exact Or.inl rfl
    · split
      · exact Or.inl rfl
      · rename_i hnum _
        exact Or.inr ⟨last, hlast, not_ne_iff.mp hnum, rfl, rfl⟩

theorem replace_chain_cases (s : ChainState) (cand : List Block) :
    ((s.replace_chain cand).1 = s)
    ∨ (cand.length > s.blockchain.length
        ∧ (s.replace_chain cand).1.blockchain = cand
        ∧ (s.replace_chain cand).1.current_block_number = cand.length - 1) := by
  unfold ChainState.replace_chain
  split
  · rename_i hcond
    exact Or.inr ⟨hcond.1, rfl, rfl⟩
  · exact Or.inl rfl

theorem chainShapeInv_of_eq (s s' : ChainState)
    (h1 : s'.blockchain = s.blockchain)
    (h2 : s'.current_block_number = s.current_block_number)
    (hs : chainShapeInv s) : chainShapeInv s' := by
  unfold chainShapeInv at *
  rw [h1, h2]
  exact hs

theorem chainShapeInv_append (s s' : ChainState) (nb : Block)
    (h1 : s'.blockchain = s.blockchain ++ [nb])
    (h2 : s'.current_block_number = nb.number)
    (hnb : nb.number = s.blockchain.length)
    (hs : chainShapeInv s) : chainShapeInv s' := by
  obtain ⟨hc, hn⟩ := hs
  constructor
  · rw [h2, h1, hnb, List.length_append]
    simp
  · rw [h1, numbersFrom_append, hn, hnb]
    simp

theorem chainShapeInv_step (s : ChainState) (op : Op) (hs : chainShapeInv s)
    (hrep : ∀ c, op = Op.replace_chain c → numbersFrom c 0 = true) :
    chainShapeInv (Op.apply s op) := by
  cases op with
  | create_account n b a pk =>
      exact chainShapeInv_of_eq s _ rfl rfl hs
  | add_validator n st ra fa =>
      exact chainShapeInv_of_eq s _ (add_validator_chain s n st ra fa).1
        (add_validator_chain s n st ra fa).2 hs
  | add_transaction se re am pk g now =>
      exact chainShapeInv_of_eq s _ (add_transaction_chain s se re am pk g now).1
        (add_transaction_chain s se re am pk g now).2 hs
  | add_remote_transaction tx =>
      exact chainShapeInv_of_eq s _ (add_remote_transaction_chain s tx).1
        (add_remote_transaction_chain s tx).2 hs
  | rebuild_state =>
      exact chainShapeInv_of_eq s _ rfl rfl hs
  | mine_block d now non m =>
      rcases mine_block_chain s d now non m with heq | ⟨nb, h1, hnum, h2, hne⟩
      · show chainShapeInv (s.mine_block d now non m).1
        rw [heq]; exact hs
      · have hpos : 0 < s.blockchain.length := List.length_pos.mpr hne
        show chainShapeInv (s.mine_block d now non m).1
        refine chainShapeInv_append s _ nb h1 ?_ ?_ hs
        · rw [h2, hnum]
        · rw [hnum, hs.1]
          omega
  | add_block_from_network b =>
      rcases add_block_chain s b with heq | ⟨last, hlast, hbnum, h1, h2⟩
      · show chainShapeInv (s.add_block_from_network b).1
        rw [heq]; exact hs
      · have hlastnum : last.number + 1 = 0 + s.blockchain.length :=
          numbersFrom_getLast s.blockchain 0 last hs.2 hlast
        refine chainShapeInv_append s _ b h1 h2 ?_ hs
        omega
  | replace_chain c =>
      rcases replace_chain_cases s c with heq | ⟨hgt, h1, h2⟩
      · show chainShapeInv (s.replace_chain c).1
        rw [heq]; exact hs
      · show chainShapeInv (s.replace_chain c).1
        constructor
        · rw [h2, h1]
        · rw [h1]
          exact hrep c rfl

theorem foldl_chainShapeInv (ops : List Op) :
    ∀ s, chainShapeInv s →
      (∀ c, Op.replace_chain c ∈ ops → numbersFrom c 0 = true) →
      chainShapeInv (ops.foldl Op.apply s) := by
  induction ops with
  | nil =>
      intro s hs _
      simpa using hs
  | cons op rest ih =>
      intro s hs hrep
      rw [List.foldl_cons]
      refine ih _ ?_ ?_
      · exact chainShapeInv_step s op hs
          (fun c hop => hrep c (by rw [hop]; exact List.mem_cons_self _ _))
      · exact fun c hc => hrep c (List.mem_cons_of_mem _ hc)

/-- C8 (amended): along every operation sequence from the initial state in
which each `replace_chain` candidate is itself numbered `0, 1, 2, ...` by
position, the reached state satisfies
`current_block_number = len(chain) - 1` and the chain's block numbers are
exactly the indices (strictly increasing, gap-free, genesis 0). Without
the restriction on `replace_chain` inputs the property fails, because
`is_chain_valid` never inspects block numbers (see the counterexample
theorem). -/
theorem chain_numbering_invariant (ops : List Op)
    (hrep : ∀ c, Op.replace_chain c ∈ ops → numbersFrom c 0 = true) :
    (runOps ops).current_block_number = (runOps ops).blockchain.length - 1 ∧
    numbersFrom (runOps ops).blockchain 0 = true :=
  foldl_chainShapeInv ops initState ⟨rfl, by decide⟩ hrep

/-- A hash-consistent direct successor of genesis carrying the wild block
number 7. -/
def c8_rogue_block : Block :=
  Block.create 7 [] "Rogue" genesis_block.hash "2030-01-03 00:00:00" 3

/-- A strictly-longer valid candidate whose numbering is not `0, 1`. -/
def c8_bad_chain : List Block := [genesis_block, c8_rogue_block]

/-- C8 counterexample: one reachable step — `replace_chain` with the valid
but mis-numbered candidate `c8_bad_chain` — produces a state whose block
at index 1 carries number 7, so the claimed invariant (block at index `i`
has number `i`) does not hold in every reachable state. -/
theorem chain_numbering_counterexample :
    ((runOps [Op.replace_chain c8_bad_chain]).blockchain.get? 1).map Block.number
        = some 7
    ∧ numbersFrom (runOps [Op.replace_chain c8_bad_chain]).blockchain 0 = false := by
  constructor
  · decide
  · decide

/-- Witness for C8 (amended): a mining step from the initial state keeps
the counter and the numbering aligned. -/
theorem chain_numbering_invariant_witness :
    (runOps [Op.mine_block 1 "t" 2 10]).current_block_number =
      (runOps [Op.mine_block 1 "t" 2 10]).blockchain.length - 1 ∧
    numbersFrom (runOps [Op.mine_block 1 "t" 2 10]).blockchain 0 = true :=
  chain_numbering_invariant [Op.mine_block 1 "t" 2 10]
    (fun c hc => by simp at hc)

/-! ### C1: speculative-debit reversal in add_block_from_network -/

theorem revertStep_balance_other (lph : List String) (accs : List Account)
    (t : Transaction) (addr : String) (h : t.sender ≠ addr) :
    balanceOf (revertStep lph accs t) addr = balanceOf accs addr := by
  unfold revertStep
  split
  · split
    · exact balanceOf_updateBalance_other accs t.sender _ addr (Ne.symm h)
    · rfl
  · rfl

theorem revertStep_presence (lph : List String) (accs : List Account)
    (t : Transaction) (addr : String) :
    (getAccount (revertStep lph accs t) addr).isSome =
      (getAccount accs addr).isSome := by
  unfold revertStep
  split
  · split
    · exact isSome_getAccount_updateBalance accs t.sender _ addr
    · rfl
  · rfl

theorem revertStep_hit (lph : List String) (accs : List Account)
    (t : Transaction) (hmem : t.tx_hash ∈ lph)
    (hpres : (getAccount accs t.sender).isSome) :
    balanceOf (revertStep lph accs t) t.sender =
      balanceOf accs t.sender + (t.amount + t.gas_fee) := by
  unfold revertStep
  rw [if_pos hmem, if_pos hpres]
  exact balanceOf_updateBalance_same accs t.sender _ hpres

theorem foldl_revert_balance_other (lph : List String) (l : List Transaction)
    (accs : List Account) (addr : String)
    (h : ∀ t ∈ l, t.sender ≠ addr) :
    balanceOf (l.foldl (revertStep lph) accs) addr = balanceOf accs addr := by
  induction l generalizing accs with
  | nil => rfl
  | cons t rest ih =>
      rw [List.foldl_cons,
        ih _ (fun u hu => h u (List.mem_cons_of_mem _ hu)),
        revertStep_balance_other lph accs t addr (h t (List.mem_cons_self _ _))]

theorem foldl_revert_presence (lph : List String) (l : List Transaction)
    (accs : List Account) (addr : String) :
    (getAccount (l.foldl (revertStep lph) accs) addr).isSome =
      (getAccount accs addr).isSome := by
  induction l generalizing accs with
  | nil => rfl
  | cons t rest ih =>
      rw [List.foldl_cons, ih, revertStep_presence]

theorem applyTx_balance_other (accs : List Account) (t : Transaction)
    (addr : String) (h1 : t.sender ≠ addr) (h2 : t.receiver ≠ addr) :
    balanceOf (applyTxAccounts accs t) addr = balanceOf accs addr := by
  unfold applyTxAccounts
  rw [balanceOf_updateBalance_other _ _ _ _ (Ne.symm h2),
    balanceOf_updateBalance_other _ _ _ _ (Ne.symm h1),
    balanceOf_ensure_zero, balanceOf_ensure_zero]

theorem applyTx_balance_sender (accs : List Account) (t : Transaction)
    (h : t.sender ≠ t.receiver) :
    balanceOf (applyTxAccounts accs t) t.sender =
      balanceOf accs t.sender - (t.amount + t.gas_fee) := by
  unfold applyTxAccounts
  rw [balanceOf_updateBalance_other _ _ _ _ h,
    balanceOf_updateBalance_same _ _ _
      (isSome_getAccount_ensure _ _ _ _ _ _
        (isSome_getAccount_ensure_same _ _ _ _ _)),
    balanceOf_ensure_zero, balanceOf_ensure_zero]

theorem applyTx_balance_receiver (accs : List Account) (t : Transaction)
    (h : t.sender ≠ t.receiver) :
    balanceOf (applyTxAccounts accs t) t.receiver =
      balanceOf accs t.receiver + t.amount := by
  unfold applyTxAccounts
  rw [balanceOf_updateBalance_same _ _ _
      (by rw [isSome_getAccount_updateBalance]
          exact isSome_getAccount_ensure_same _ _ _ _ _),
    balanceOf_updateBalance_other _ _ _ _ (Ne.symm h),
    balanceOf_ensure_zero, balanceOf_ensure_zero]

theorem foldl_applyTx_balance_other (l : List Transaction)
    (accs : List Account) (addr : String)
    (h : ∀ t ∈ l, t.sender ≠ addr ∧ t.receiver ≠ addr) :
    balanceOf (l.foldl applyTxAccounts accs) addr = balanceOf accs addr := by
  induction l generalizing accs with
  | nil => rfl
  | cons t rest ih =>
      rw [List.foldl_cons,
        ih _ (fun u hu => h u (List.mem_cons_of_mem _ hu)),
        applyTx_balance_other accs t addr (h t (List.mem_cons_self _ _)).1
          (h t (List.mem_cons_self _ _)).2]

theorem applyBlockAccounts_balance (vs : List Validator) (accs : List Account)
    (block : Block) (addr : String)
    (hr : ∀ val ∈ vs, val.name = block.validator → val.reward_address ≠ addr) :
    balanceOf (applyBlockAccounts vs accs block) addr =
      balanceOf (block.transactions.foldl applyTxAccounts accs) addr := by
  unfold applyBlockAccounts
  dsimp only
  split
  · rfl
  · split
    · rename_i val hfind
      have hmem : val ∈ vs := List.mem_of_find?_eq_some hfind
      have hname : val.name = block.validator := by
        have := List.find?_some hfind
        simpa using this
      rw [balanceOf_updateBalance_other _ _ _ _ (Ne.symm (hr val hmem hname)),
        balanceOf_ensure_zero]
    · rfl

/-- C1: when `add_block_from_network` accepts a block containing a
transaction `tx` whose hash matches a locally pending transaction, whose
sender account exists locally, whose sender, receiver and (when the block's
validator is known) validator reward address are pairwise distinct, and
which is the only transaction of the block touching its sender or
receiver, then the speculative debit is reversed and the canonical effects
applied exactly once: afterwards the sender's balance equals its balance
before the call and the receiver's balance has increased by exactly
`tx.amount` (balances of missing accounts read as their creation value
0). -/
theorem add_block_no_double_debit (s : ChainState) (block : Block)
    (tx : Transaction) (pre post : List Transaction)
    (hsplit : block.transactions = pre ++ tx :: post)
    (hothers : ∀ t ∈ pre ++ post,
      t.sender ≠ tx.sender ∧ t.sender ≠ tx.receiver ∧
      t.receiver ≠ tx.sender ∧ t.receiver ≠ tx.receiver)
    (hsr : tx.sender ≠ tx.receiver)
    (hpend : tx.tx_hash ∈ s.pending_transactions.map Transaction.tx_hash)
    (hsender : (getAccount s.accounts tx.sender).isSome)
    (hreward : ∀ val ∈ s.validators, val.name = block.validator →
      val.reward_address ≠ tx.sender ∧ val.reward_address ≠ tx.receiver)
    (hsucc : (s.add_block_from_network block).2 = true) :
    balanceOf (s.add_block_from_network block).1.accounts tx.sender =
      balanceOf s.accounts tx.sender ∧
    balanceOf (s.add_block_from_network block).1.accounts tx.receiver =
      balanceOf s.accounts tx.receiver + tx.amount := by
  cases hlast : s.blockchain.getLast? with
  | none =>
      exfalso
      simp only [ChainState.add_block_from_network, hlast] at hsucc
      exact Bool.false_ne_true hsucc
  | some last =>
      by_cases h1 : block.number = last.number + 1
      · by_cases h2 : block.previous_hash = last.hash
        · have haccs : (s.add_block_from_network block).1.accounts =
              applyBlockAccounts s.validators
                (block.transactions.foldl
                  (revertStep (s.pending_transactions.map Transaction.tx_hash))
                  s.accounts) block := by
            simp only [ChainState.add_block_from_network, hlast]
            rw [if_neg (fun hc => hc h1), if_neg (fun hc => hc h2)]
          have hpres0 : (getAccount
              (pre.foldl (revertStep (s.pending_transactions.map Transaction.tx_hash))
                s.accounts) tx.sender).isSome := by
            rw [foldl_revert_presence]
            exact hsender
          constructor
          · rw [haccs,
              applyBlockAccounts_balance _ _ _ _
                (fun val hv hn => (hreward val hv hn).1),
              hsplit, List.foldl_append, List.foldl_append, List.foldl_cons,
              List.foldl_cons,
              foldl_applyTx_balance_other post _ _
                (fun t ht => ⟨(hothers t (List.mem_append_right _ ht)).1,
                  (hothers t (List.mem_append_right _ ht)).2.2.1⟩),
              applyTx_balance_sender _ _ hsr,
              foldl_applyTx_balance_other pre _ _
                (fun t ht => ⟨(hothers t (List.mem_append_left _ ht)).1,
                  (hothers t (List.mem_append_left _ ht)).2.2.1⟩),
              foldl_revert_balance_other _ post _ _
                (fun t ht => (hothers t (List.mem_append_right _ ht)).1),
              revertStep_hit _ _ tx hpend hpres0,
              foldl_revert_balance_other _ pre _ _
                (fun t ht => (hothers t (List.mem_append_left _ ht)).1)]
            ring
          · rw [haccs,
              applyBlockAccounts_balance _ _ _ _
                (fun val hv hn => (hreward val hv hn).2),
              hsplit, List.foldl_append, List.foldl_append, List.foldl_cons,
              List.foldl_cons,
              foldl_applyTx_balance_other post _ _
                (fun t ht => ⟨(hothers t (List.mem_append_right _ ht)).2.1,
                  (hothers t (List.mem_append_right _ ht)).2.2.2⟩),
              applyTx_balance_receiver _ _ hsr,
              foldl_applyTx_balance_other pre _ _
                (fun t ht => ⟨(hothers t (List.mem_append_left _ ht)).2.1,
                  (hothers t (List.mem_append_left _ ht)).2.2.2⟩),
              foldl_revert_balance_other _ post _ _
                (fun t ht => (hothers t (List.mem_append_right _ ht)).2.1),
              revertStep_balance_other _ _ tx _ hsr,
              foldl_revert_balance_other _ pre _ _
                (fun t ht => (hothers t (List.mem_append_left _ ht)).2.1)]
        · exfalso
          simp only [ChainState.add_block_from_network, hlast] at hsucc
          rw [if_neg (fun hc => hc h1), if_pos h2] at hsucc
          simp at hsucc
      · exfalso
        simp only [ChainState.add_block_from_network, hlast] at hsucc
        rw [if_pos h1] at hsucc
        simp at hsucc

/-- The locally submitted transaction of the C1 witness scenario. -/
def c1_tx : Transaction := Transaction.create "0xa" "0xb" 2 (1 / 1000) "t0"

/-- The known validator of the C1 witness scenario. -/
def c1_validator : Validator :=
  { name := "V", stake := 100, reward_address := "0xw",
    blocks_proposed := 0, total_rewards := 0, is_active := true }

/-- C1 witness state: two funded accounts, one validator, `c1_tx` pending
(its speculative debit having happened at submission time). -/
def c1_state : ChainState :=
  { validators := [c1_validator], blockchain := [genesis_block],
    pending_transactions := [c1_tx],
    accounts :=
      [{ name := "Alice", address := "0xa", public_key := none, balance := 10 },
       { name := "Bob", address := "0xb", public_key := none, balance := 5 }],
    current_block_number := 0 }

/-- The network block of the C1 witness scenario, containing `c1_tx`. -/
def c1_block : Block := Block.create 1 [c1_tx] "V" genesis_block.hash "t1" 4

/-- Witness for C1: accepting `c1_block` reverses `c1_tx`'s speculative
debit exactly once and credits the receiver with its amount. -/
theorem add_block_no_double_debit_witness :
    balanceOf (c1_state.add_block_from_network c1_block).1.accounts c1_tx.sender =
      balanceOf c1_state.accounts c1_tx.sender ∧
    balanceOf (c1_state.add_block_from_network c1_block).1.accounts c1_tx.receiver =
      balanceOf c1_state.accounts c1_tx.receiver + c1_tx.amount :=
  add_block_no_double_debit c1_state c1_block c1_tx [] [] rfl
    (by simp) (by decide) (by simp [c1_state, c1_tx])
    (by decide) (by decide) (by decide)
